import Mathlib

/-!
Verification of the token issuance and refresh subsystem
(`StreamTokenProvider` and `TokenManager` from `tokenProvider.ts`).

Strings are modelled as lists of characters.  The clock (`Date.now()`,
milliseconds since epoch) is threaded explicitly as a `Nat` argument
`nowMs`; every operation that reads the clock in the source receives it
as a parameter, frozen for the duration of one call.

The `jsonwebtoken` library (`jwt.sign` / `jwt.verify`, HS256) is a
third-party dependency whose source is not part of this repository; it
is modelled here by `jwtSign` / `jwtVerify` following its documented
behaviour: a token is three dot-separated segments (header, payload,
signature); `verify` splits on dots, requires exactly three segments,
recomputes the keyed signature over `header ++ "." ++ payload`,
compares it with the embedded signature, decodes the payload, and
rejects the token as expired when the payload carries an `exp` claim
with `floor(nowMs / 1000) >= exp`.  The segment encodings and the MAC
are concrete injective dot-free functions standing in for
base64url/JSON and HMAC-SHA256; the development relies only on their
determinism, injectivity on encoded payloads, and on string
disequality of distinct signatures — never on cryptographic hardness.
-/

set_option maxRecDepth 100000

/-- Character for a decimal digit `d < 10`. -/
def digitChar (d : Nat) : Char := Char.ofNat (48 + d)

/-- Numeric value of a decimal digit character. -/
def digitVal (c : Char) : Nat := c.toNat - 48

/-- Fuel-driven little-endian decimal digits of a natural number. -/
def encDigitsGo : Nat → Nat → List Char
  | _, 0 => []
  | 0, _ + 1 => []
  | fuel + 1, n + 1 => digitChar ((n + 1) % 10) :: encDigitsGo fuel ((n + 1) / 10)

/-- Little-endian decimal digits of a natural number (empty for 0). -/
def encDigits (n : Nat) : List Char := encDigitsGo n n

/-- Value of a little-endian digit string. -/
def decDigits (l : List Char) : Nat := l.foldr (fun c a => digitVal c + 10 * a) 0

theorem encDigitsGo_congr : ∀ f₁ : Nat, ∀ n f₂ : Nat, n ≤ f₁ → n ≤ f₂ →
    encDigitsGo f₁ n = encDigitsGo f₂ n := by
  intro f₁
  induction f₁ with
  | zero =>
    intro n f₂ h₁ _
    interval_cases n
    cases f₂ <;> rfl
  | succ f ih =>
    intro n f₂ h₁ h₂
    cases n with
    | zero => cases f₂ <;> rfl
    | succ m =>
      cases f₂ with
      | zero => omega
      | succ f' =>
        show digitChar _ :: encDigitsGo f (_ / 10) = digitChar _ :: encDigitsGo f' (_ / 10)
        have hd : (m + 1) / 10 ≤ f := by omega
        have hd' : (m + 1) / 10 ≤ f' := by omega
        rw [ih ((m + 1) / 10) f' hd hd']

theorem encDigits_zero : encDigits 0 = [] := rfl

theorem encDigits_succ (n : Nat) (h : n ≠ 0) :
    encDigits n = digitChar (n % 10) :: encDigits (n / 10) := by
  cases n with
  | zero => exact absurd rfl h
  | succ m =>
    show digitChar _ :: encDigitsGo m ((m + 1) / 10) = _
    have hle : (m + 1) / 10 ≤ m := by omega
    rw [encDigitsGo_congr m ((m + 1) / 10) ((m + 1) / 10) hle (le_refl _)]
    rfl

theorem digitVal_digitChar {d : Nat} (h : d < 10) : digitVal (digitChar d) = d := by
  interval_cases d <;> decide

theorem decDigits_encDigits (n : Nat) : decDigits (encDigits n) = n := by
  induction n using Nat.strong_induction_on with
  | _ n ih =>
    by_cases h : n = 0
    · subst h; rfl
    · rw [encDigits_succ n h]
      show digitVal (digitChar (n % 10)) + 10 * decDigits (encDigits (n / 10)) = n
      rw [digitVal_digitChar (Nat.mod_lt n (by omega)), ih (n / 10) (Nat.div_lt_self (by omega) (by omega))]
      omega

theorem mem_encDigitsGo : ∀ fuel n : Nat, ∀ c ∈ encDigitsGo fuel n,
    ∃ d, d < 10 ∧ c = digitChar d := by
  intro fuel
  induction fuel with
  | zero =>
    intro n c hc
    cases n <;> simp [encDigitsGo] at hc
  | succ f ih =>
    intro n c hc
    cases n with
    | zero => simp [encDigitsGo] at hc
    | succ m =>
      rcases List.mem_cons.mp hc with h | h
      · exact ⟨(m + 1) % 10, Nat.mod_lt _ (by omega), h⟩
      · exact ih _ c h

theorem mem_encDigits {n : Nat} {c : Char} (hc : c ∈ encDigits n) :
    ∃ d, d < 10 ∧ c = digitChar d :=
  mem_encDigitsGo n n c hc

theorem digitChar_safe {d : Nat} (h : d < 10) :
    digitChar d ≠ '.' ∧ digitChar d ≠ ',' ∧ digitChar d ≠ '/' ∧
    digitChar d ≠ '-' ∧ digitChar d ≠ 'E' := by
  interval_cases d <;> exact ⟨by decide, by decide, by decide, by decide, by decide⟩

/-- Escape-encode an arbitrary character string into digits and `/`
terminators (dot-free stand-in for base64url of a JSON string). -/
def encString : List Char → List Char
  | [] => []
  | c :: cs => encDigits c.toNat ++ '/' :: encString cs

/-- Fuel-driven decoder for `encString`: repeatedly read digits up to the
next `/` terminator and rebuild the character. -/
def decStringGo : Nat → List Char → Option (List Char)
  | _, [] => some []
  | 0, _ :: _ => none
  | fuel + 1, c :: rest =>
    let ds := (c :: rest).takeWhile (fun x => x ≠ '/')
    let rem := (c :: rest).dropWhile (fun x => x ≠ '/')
    if rem = [] then none
    else (decStringGo fuel rem.tail).map (fun cs => Char.ofNat (decDigits ds) :: cs)

/-- Decode an `encString`-encoded string. -/
def decString (l : List Char) : Option (List Char) := decStringGo l.length l

theorem mem_encString {s : List Char} {c : Char} (hc : c ∈ encString s) :
    c = '/' ∨ ∃ d, d < 10 ∧ c = digitChar d := by
  induction s with
  | nil => simp [encString] at hc
  | cons x xs ih =>
    rcases List.mem_append.mp hc with h | h
    · exact Or.inr (mem_encDigits h)
    · rcases List.mem_cons.mp h with h | h
      · exact Or.inl h
      · exact ih h

theorem takeWhile_append_all {p : Char → Bool} {a : List Char} (b : List Char)
    (h : ∀ x ∈ a, p x = true) : (a ++ b).takeWhile p = a ++ b.takeWhile p := by
  induction a with
  | nil => rfl
  | cons x xs ih =>
    have hx : p x = true := h x (List.mem_cons_self x xs)
    simp only [List.cons_append, List.takeWhile_cons, hx, if_true]
    rw [ih (fun y hy => h y (List.mem_cons_of_mem x hy))]

theorem dropWhile_append_all {p : Char → Bool} {a : List Char} (b : List Char)
    (h : ∀ x ∈ a, p x = true) : (a ++ b).dropWhile p = b.dropWhile p := by
  induction a with
  | nil => rfl
  | cons x xs ih =>
    have hx : p x = true := h x (List.mem_cons_self x xs)
    simp only [List.cons_append, List.dropWhile_cons, hx, if_true]
    exact ih (fun y hy => h y (List.mem_cons_of_mem x hy))

theorem encDigits_not_slash {n : Nat} : ∀ x ∈ encDigits n, decide (x ≠ '/') = true := by
  intro x hx
  rcases mem_encDigits hx with ⟨d, hd, rfl⟩
  simpa using (digitChar_safe hd).2.2.1

theorem decStringGo_encString : ∀ s : List Char, ∀ fuel : Nat,
    (encString s).length ≤ fuel → decStringGo fuel (encString s) = some s := by
  intro s
  induction s with
  | nil => intro fuel _; cases fuel <;> rfl
  | cons c cs ih =>
    intro fuel hlen
    have hne : encString (c :: cs) = encDigits c.toNat ++ '/' :: encString cs := rfl
    have hlen' : (encString (c :: cs)).length =
        (encDigits c.toNat).length + 1 + (encString cs).length := by
      rw [hne]; simp [List.length_append]; omega
    cases fuel with
    | zero =>
      exfalso
      rw [hlen'] at hlen
      omega
    | succ f =>
      have htake : (encString (c :: cs)).takeWhile (fun x => x ≠ '/') = encDigits c.toNat := by
        rw [hne, takeWhile_append_all _ encDigits_not_slash]
        simp [List.takeWhile_cons]
      have hdrop : (encString (c :: cs)).dropWhile (fun x => x ≠ '/') = '/' :: encString cs := by
        rw [hne, dropWhile_append_all _ encDigits_not_slash]
        simp [List.dropWhile_cons]
      -- the encoded list is nonempty, so the third equation of `decStringGo` applies
      obtain ⟨y, ys, hys⟩ : ∃ y ys, encString (c :: cs) = y :: ys := by
        rw [hne]
        cases hEnc : encDigits c.toNat with
        | nil => exact ⟨'/', encString cs, rfl⟩
        | cons a as => exact ⟨a, as ++ '/' :: encString cs, by simp⟩
      rw [hys] at htake hdrop ⊢
      have hstep : decStringGo (f + 1) (y :: ys) =
          if (y :: ys).dropWhile (fun x => x ≠ '/') = [] then none
          else (decStringGo f ((y :: ys).dropWhile (fun x => x ≠ '/')).tail).map
            (fun cs' => Char.ofNat (decDigits ((y :: ys).takeWhile (fun x => x ≠ '/'))) :: cs') := rfl
      rw [hstep, htake, hdrop]
      have hrec : decStringGo f (encString cs) = some cs := by
        apply ih
        have : (encString (c :: cs)).length ≤ f + 1 := hlen
        rw [hlen'] at this
        omega
      simp [hrec, decDigits_encDigits, Char.ofNat_toNat]

theorem decString_encString (s : List Char) : decString (encString s) = some s :=
  decStringGo_encString s (encString s).length (le_refl _)

/-- Encode an integer (dot-free, comma-free): optional `-` sign then
little-endian decimal digits; zero encodes to the empty list. -/
def encInt : Int → List Char
  | Int.ofNat n => encDigits n
  | Int.negSucc m => '-' :: encDigits (m + 1)

/-- Total decoder for `encInt`. -/
def decInt (l : List Char) : Int :=
  if l.head? = some '-' then -(decDigits l.tail : Int) else (decDigits l : Int)

theorem decInt_encInt (i : Int) : decInt (encInt i) = i := by
  cases i with
  | ofNat n =>
    show decInt (encDigits n) = (n : Int)
    have hhead : (encDigits n).head? ≠ some '-' := by
      cases hn : encDigits n with
      | nil => simp
      | cons a as =>
        have ha : a ∈ encDigits n := by rw [hn]; exact List.mem_cons_self a as
        rcases mem_encDigits ha with ⟨d, hd, rfl⟩
        simp [(digitChar_safe hd).2.2.2.1]
    rw [decInt, if_neg hhead, decDigits_encDigits]
  | negSucc m =>
    show decInt ('-' :: encDigits (m + 1)) = Int.negSucc m
    rw [decInt]
    simp [decDigits_encDigits]
    rw [Int.negSucc_eq]
    ring

theorem mem_encInt {i : Int} {c : Char} (hc : c ∈ encInt i) :
    c = '-' ∨ ∃ d, d < 10 ∧ c = digitChar d := by
  cases i with
  | ofNat n => exact Or.inr (mem_encDigits hc)
  | negSucc m =>
    rcases List.mem_cons.mp hc with h | h
    · exact Or.inl h
    · exact Or.inr (mem_encDigits h)

/-- Encode an optional integer claim: absent is empty, present is
marked with `E` (mirrors presence or absence of the `exp` JSON key). -/
def encOptInt : Option Int → List Char
  | none => []
  | some i => 'E' :: encInt i

/-- Decoder for `encOptInt`. -/
def decOptInt (l : List Char) : Option (Option Int) :=
  if l = [] then some none
  else if l.head? = some 'E' then some (some (decInt l.tail)) else none

theorem decOptInt_encOptInt (o : Option Int) : decOptInt (encOptInt o) = some o := by
  cases o with
  | none => rfl
  | some i =>
    show decOptInt ('E' :: encInt i) = some (some i)
    rw [decOptInt]
    simp [decInt_encInt]

theorem mem_encOptInt {o : Option Int} {c : Char} (hc : c ∈ encOptInt o) :
    c = 'E' ∨ c = '-' ∨ ∃ d, d < 10 ∧ c = digitChar d := by
  cases o with
  | none => simp [encOptInt] at hc
  | some i =>
    rcases List.mem_cons.mp hc with h | h
    · exact Or.inl h
    · exact Or.inr (mem_encInt h)

/-- The JWT payload built by `generateUserToken`:
`{ user_id, iat, exp }` (in `jsonwebtoken`, `exp` may be absent on
foreign tokens, hence the `Option`). -/
structure JwtPayload where
  user_id : List Char
  iat : Int
  exp : Option Int
deriving DecidableEq

/-- Serialize a payload (stand-in for base64url of its JSON form):
three comma-separated dot-free fields. -/
def encPayload (p : JwtPayload) : List Char :=
  encString p.user_id ++ (',' :: (encInt p.iat ++ (',' :: encOptInt p.exp)))

/-- Split a character list on a separator, mirroring JavaScript
`string.split(sep)`: always returns at least one chunk. -/
def splitOnChar (sep : Char) : List Char → List (List Char)
  | [] => [[]]
  | c :: rest =>
    if c = sep then [] :: splitOnChar sep rest
    else
      match splitOnChar sep rest with
      | [] => [[c]]
      | s :: ss => (c :: s) :: ss

theorem splitOnChar_ne_nil (sep : Char) (l : List Char) : splitOnChar sep l ≠ [] := by
  induction l with
  | nil => simp [splitOnChar]
  | cons c rest ih =>
    by_cases h : c = sep
    · simp [splitOnChar, h]
    · rw [splitOnChar, if_neg h]
      cases hs : splitOnChar sep rest with
      | nil => simp
      | cons s ss => simp

theorem splitOnChar_of_not_mem {sep : Char} {a : List Char} (h : sep ∉ a) :
    splitOnChar sep a = [a] := by
  induction a with
  | nil => rfl
  | cons c rest ih =>
    have hc : ¬c = sep := fun hh => h (hh ▸ List.mem_cons_self c rest)
    have hrest : sep ∉ rest := fun hh => h (List.mem_cons_of_mem c hh)
    rw [splitOnChar, if_neg hc, ih hrest]

theorem splitOnChar_append {sep : Char} {a : List Char} (b : List Char) (h : sep ∉ a) :
    splitOnChar sep (a ++ sep :: b) = a :: splitOnChar sep b := by
  induction a with
  | nil => simp [splitOnChar]
  | cons c rest ih =>
    have hc : ¬c = sep := fun hh => h (hh ▸ List.mem_cons_self c rest)
    have hrest : sep ∉ rest := fun hh => h (List.mem_cons_of_mem c hh)
    rw [List.cons_append, splitOnChar, if_neg hc, ih hrest]

theorem splitOnChar_length (sep : Char) (l : List Char) :
    (splitOnChar sep l).length = l.count sep + 1 := by
  induction l with
  | nil => simp [splitOnChar]
  | cons c rest ih =>
    by_cases h : c = sep
    · subst h
      rw [splitOnChar, if_pos rfl]
      simp [List.count_cons, ih]
    · rw [splitOnChar, if_neg h]
      cases hs : splitOnChar sep rest with
      | nil => exact absurd hs (splitOnChar_ne_nil sep rest)
      | cons s ss =>
        rw [hs] at ih
        simp only [List.length_cons] at ih ⊢
        rw [List.count_cons]
        simp [h, ih]

/-- Deserialize a payload: split on commas, expect exactly the three
fields written by `encPayload`. -/
def decPayload (l : List Char) : Option JwtPayload :=
  match splitOnChar ',' l with
  | [a, b, c] =>
    match decString a, decOptInt c with
    | some u, some e => some ⟨u, decInt b, e⟩
    | _, _ => none
  | _ => none

theorem comma_not_mem_encString {s : List Char} : ',' ∉ encString s := by
  intro hc
  rcases mem_encString hc with h1 | ⟨d, hlt, h1⟩
  · exact absurd h1 (by decide)
  · exact (digitChar_safe hlt).2.1 h1.symm

theorem comma_not_mem_encInt {i : Int} : ',' ∉ encInt i := by
  intro hc
  rcases mem_encInt hc with h1 | ⟨d, hlt, h1⟩
  · exact absurd h1.symm (by decide)
  · exact (digitChar_safe hlt).2.1 h1.symm

theorem comma_not_mem_encOptInt {o : Option Int} : ',' ∉ encOptInt o := by
  intro hc
  rcases mem_encOptInt hc with h1 | h1 | ⟨d, hlt, h1⟩
  · exact absurd h1.symm (by decide)
  · exact absurd h1.symm (by decide)
  · exact (digitChar_safe hlt).2.1 h1.symm

theorem decPayload_encPayload (p : JwtPayload) : decPayload (encPayload p) = some p := by
  have hsplit : splitOnChar ',' (encPayload p) =
      [encString p.user_id, encInt p.iat, encOptInt p.exp] := by
    rw [encPayload, splitOnChar_append _ comma_not_mem_encString,
      splitOnChar_append _ comma_not_mem_encInt,
      splitOnChar_of_not_mem comma_not_mem_encOptInt]
  rw [decPayload, hsplit]
  simp [decString_encString, decOptInt_encOptInt, decInt_encInt]

theorem dot_not_mem_encPayload {p : JwtPayload} : '.' ∉ encPayload p := by
  intro hc
  rw [encPayload] at hc
  rcases List.mem_append.mp hc with h | h
  · rcases mem_encString h with h1 | ⟨d, hlt, h1⟩
    · exact absurd h1 (by decide)
    · exact (digitChar_safe hlt).1 h1.symm
  · rcases List.mem_cons.mp h with h1 | h1
    · exact absurd h1 (by decide)
    · rcases List.mem_append.mp h1 with h2 | h2
      · rcases mem_encInt h2 with h3 | ⟨d, hlt, h3⟩
        · exact absurd h3 (by decide)
        · exact (digitChar_safe hlt).1 h3.symm
      · rcases List.mem_cons.mp h2 with h3 | h3
        · exact absurd h3 (by decide)
        · rcases mem_encOptInt h3 with h4 | h4 | ⟨d, hlt, h4⟩
          · exact absurd h4 (by decide)
          · exact absurd h4 (by decide)
          · exact (digitChar_safe hlt).1 h4.symm

/-- The constant encoded JWT header for algorithm HS256
(base64url of the JSON header, as produced by `jwt.sign`). -/
def jwtHeader : List Char := "eyJhbGciOiJIUzI1NiIsInR5cCI6IkpXVCJ9".data

theorem dot_not_mem_jwtHeader : '.' ∉ jwtHeader := by decide

/-- Modelled stand-in for the HMAC-SHA256 signature over the signing
input: a deterministic keyed function of (secret, message) producing a
dot-free string.  No cryptographic property is used in this
development, only determinism and disequality of distinct strings. -/
def hmacSHA256 (secret message : List Char) : List Char :=
  encString (secret ++ message)

theorem dot_not_mem_hmacSHA256 {secret message : List Char} :
    '.' ∉ hmacSHA256 secret message := by
  intro hc
  rcases mem_encString hc with h1 | ⟨d, hlt, h1⟩
  · exact absurd h1 (by decide)
  · exact (digitChar_safe hlt).1 h1.symm

/-- The signing input of a token: `header ++ "." ++ payload`. -/
def signingInput (p : JwtPayload) : List Char :=
  jwtHeader ++ '.' :: encPayload p

/-- Model of `jwt.sign(payload, secret, { algorithm: "HS256" })`. -/
def jwtSign (secret : List Char) (p : JwtPayload) : List Char :=
  signingInput p ++ '.' :: hmacSHA256 secret (signingInput p)

/-- Verification of the three segments of a token, given the already
split header, payload and signature parts (the body of `jwt.verify`
after the structural split). -/
def jwtVerifyParts (secret : List Char) (nowMs : Nat) (h pe sg : List Char) :
    Option JwtPayload :=
  if h = jwtHeader ∧ sg = hmacSHA256 secret (h ++ '.' :: pe) then
    match decPayload pe with
    | some p =>
      match p.exp with
      | some e => if ((nowMs / 1000 : Nat) : Int) ≥ e then none else some p
      | none => some p
    | none => none
  else none

/-- Model of `jwt.verify(token, secret)`: split on dots, require three
segments, check header and signature, decode the payload, and reject
expired tokens (`floor(nowMs / 1000) ≥ exp`).  Returns `none` where the
library throws. -/
def jwtVerify (secret : List Char) (nowMs : Nat) (token : List Char) :
    Option JwtPayload :=
  match splitOnChar '.' token with
  | [h, pe, sg] => jwtVerifyParts secret nowMs h pe sg
  | _ => none

theorem jwtSign_eq (secret : List Char) (p : JwtPayload) :
    jwtSign secret p = jwtHeader ++
      ('.' :: (encPayload p ++ ('.' :: hmacSHA256 secret (signingInput p)))) := by
  rw [jwtSign]
  conv_lhs => rw [signingInput]
  rw [List.append_assoc, List.cons_append]
  rfl

theorem splitOnChar_jwtSign (secret : List Char) (p : JwtPayload) :
    splitOnChar '.' (jwtSign secret p) =
      [jwtHeader, encPayload p, hmacSHA256 secret (signingInput p)] := by
  rw [jwtSign_eq,
    splitOnChar_append _ dot_not_mem_jwtHeader,
    splitOnChar_append _ dot_not_mem_encPayload,
    splitOnChar_of_not_mem dot_not_mem_hmacSHA256]

/-- A token signed with the same secret verifies back to its payload,
unless it is expired. -/
theorem jwtVerify_jwtSign (secret : List Char) (nowMs : Nat) (p : JwtPayload) :
    jwtVerify secret nowMs (jwtSign secret p) =
      match p.exp with
      | some e => if ((nowMs / 1000 : Nat) : Int) ≥ e then none else some p
      | none => some p := by
  rw [jwtVerify, splitOnChar_jwtSign]
  show jwtVerifyParts secret nowMs jwtHeader (encPayload p)
    (hmacSHA256 secret (signingInput p)) = _
  rw [jwtVerifyParts, if_pos ⟨rfl, rfl⟩, decPayload_encPayload]

/-- `TokenGenerationOptions` from `tokenProvider.ts`: `userId` plus an
optional `validityInSeconds` (absent means the destructuring default
3600 applies inside `generateUserToken`). -/
structure TokenGenerationOptions where
  userId : List Char
  validityInSeconds : Option Int
deriving DecidableEq

/-- `TokenInfo` from `tokenProvider.ts`: the signed token string, the
expiry instant (a `Date`, modelled in epoch milliseconds) and the user
id the token was minted for. -/
structure TokenInfo where
  token : List Char
  expiresAtMs : Int
  userId : List Char
deriving DecidableEq

/-- `StreamTokenProvider`: holds the api key and the signing secret. -/
structure StreamTokenProvider where
  apiKey : List Char
  apiSecret : List Char
deriving DecidableEq

/-- `StreamTokenProvider.generateUserToken`: builds the payload
`{ user_id, iat := floor(nowMs / 1000), exp := iat + validityInSeconds }`
(default validity 3600 seconds when the option is absent), signs it
with the api secret, and returns the token together with
`expiresAt = nowMs + validityInSeconds * 1000` and the user id. -/
def StreamTokenProvider.generateUserToken (tp : StreamTokenProvider) (nowMs : Nat)
    (options : TokenGenerationOptions) : TokenInfo :=
  let validityInSeconds : Int := options.validityInSeconds.getD 3600
  let payload : JwtPayload :=
    { user_id := options.userId
      iat := ((nowMs / 1000 : Nat) : Int)
      exp := some (((nowMs / 1000 : Nat) : Int) + validityInSeconds) }
  { token := jwtSign tp.apiSecret payload
    expiresAtMs := (nowMs : Int) + validityInSeconds * 1000
    userId := options.userId }

/-- `StreamTokenProvider.validateToken`: `jwt.verify` (collapsing any
throw to `false`), then the redundant manual expiry check
`decoded.exp && decoded.exp < Date.now() / 1000` (the guard is a
JavaScript truthiness test, so `exp = 0` skips it; the division is
real-valued, so `exp < nowMs / 1000` is `exp * 1000 < nowMs`). -/
def StreamTokenProvider.validateToken (tp : StreamTokenProvider) (nowMs : Nat)
    (token : List Char) : Bool :=
  match jwtVerify tp.apiSecret nowMs token with
  | some decoded =>
    match decoded.exp with
    | some e => if e ≠ 0 ∧ e * 1000 < (nowMs : Int) then false else true
    | none => true
  | none => false

/-- `StreamTokenProvider.getUserFromToken`: the `{ userId, exp }` of the
verified payload, or `null` when `jwt.verify` throws. -/
def StreamTokenProvider.getUserFromToken (tp : StreamTokenProvider) (nowMs : Nat)
    (token : List Char) : Option (List Char × Option Int) :=
  (jwtVerify tp.apiSecret nowMs token).map (fun decoded => (decoded.user_id, decoded.exp))

/-- `StreamTokenProvider.isTokenExpiringSoon`: `true` on any
`jwt.verify` throw; `false` when the decoded `exp` is falsy (absent or
zero); otherwise `nowMs >= exp * 1000 - minutesBeforeExpiry * 60 * 1000`.
The source default for `minutesBeforeExpiry` is 5; call sites pass it
explicitly here. -/
def StreamTokenProvider.isTokenExpiringSoon (tp : StreamTokenProvider) (nowMs : Nat)
    (token : List Char) (minutesBeforeExpiry : Int) : Bool :=
  match jwtVerify tp.apiSecret nowMs token with
  | none => true
  | some decoded =>
    match decoded.exp with
    | none => false
    | some e =>
      if e = 0 then false
      else decide (e * 1000 - minutesBeforeExpiry * 60 * 1000 ≤ (nowMs : Int))

/-- State of a `TokenManager`: the provider it was constructed with,
the single cached `TokenInfo` slot, and whether a refresh callback is
registered (the callback function itself is not modelled; what the model records is
each invocation, see `GetValidTokenResult.callbackCalls`). -/
structure TokenManagerState where
  tokenProvider : StreamTokenProvider
  currentToken : Option TokenInfo
  hasRefreshCallback : Bool
deriving DecidableEq

/-- A freshly constructed `TokenManager`: empty cache, no callback. -/
def TokenManagerState.new (tp : StreamTokenProvider) : TokenManagerState :=
  { tokenProvider := tp, currentToken := none, hasRefreshCallback := false }

/-- `TokenManager.setRefreshCallback`: registers the (single) observer. -/
def TokenManagerState.setRefreshCallback (st : TokenManagerState) : TokenManagerState :=
  { st with hasRefreshCallback := true }

/-- Result of one `getValidToken` call: the returned token string, the
manager state afterwards, and the list of token strings passed to the
refresh callback during the call (empty or a singleton). -/
structure GetValidTokenResult where
  token : List Char
  state : TokenManagerState
  callbackCalls : List (List Char)
deriving DecidableEq

/-- The refresh branch of `getValidToken`: mint, replace the cache,
invoke the callback when registered. -/
def TokenManagerState.refreshPath (st : TokenManagerState) (nowMs : Nat)
    (userId : List Char) (validityInSeconds : Option Int) : GetValidTokenResult :=
  let fresh := st.tokenProvider.generateUserToken nowMs
    { userId := userId, validityInSeconds := validityInSeconds }
  { token := fresh.token
    state := { st with currentToken := some fresh }
    callbackCalls := if st.hasRefreshCallback then [fresh.token] else [] }

/-- `TokenManager.getValidToken`: refresh when there is no cached
token, or the cached token belongs to a different user, or
`isTokenExpiringSoon` (with its default lead of 5 minutes) holds of the
cached token; otherwise return the cached token string unchanged. -/
def TokenManagerState.getValidToken (st : TokenManagerState) (nowMs : Nat)
    (userId : List Char) (validityInSeconds : Option Int) : GetValidTokenResult :=
  match st.currentToken with
  | none => st.refreshPath nowMs userId validityInSeconds
  | some cur =>
    if cur.userId ≠ userId ∨ st.tokenProvider.isTokenExpiringSoon nowMs cur.token 5 = true then
      st.refreshPath nowMs userId validityInSeconds
    else
      { token := cur.token, state := st, callbackCalls := [] }

/-- `TokenManager.clearToken`: drop the cached token. -/
def TokenManagerState.clearToken (st : TokenManagerState) : TokenManagerState :=
  { st with currentToken := none }

/-- Sample provider used by concrete witnesses. -/
def tpSample : StreamTokenProvider := { apiKey := [], apiSecret := ['k'] }

theorem nowMs_div_bounds (nowMs : Nat) :
    ((nowMs / 1000 : Nat) : Int) * 1000 ≤ (nowMs : Int) ∧
    (nowMs : Int) < ((nowMs / 1000 : Nat) : Int) * 1000 + 1000 := by
  have h1 := Nat.div_add_mod nowMs 1000
  have h2 := Nat.mod_lt nowMs (show 0 < 1000 by omega)
  omega

/-- The token minted by `generateUserToken`, in terms of `jwtSign`. -/
theorem generateUserToken_token (tp : StreamTokenProvider) (nowMs : Nat)
    (s : List Char) (ov : Option Int) :
    (tp.generateUserToken nowMs { userId := s, validityInSeconds := ov }).token
      = jwtSign tp.apiSecret
          { user_id := s
            iat := ((nowMs / 1000 : Nat) : Int)
            exp := some (((nowMs / 1000 : Nat) : Int) + ov.getD 3600) } := rfl

/-- Verification outcome on a token freshly minted by
`generateUserToken`, at an arbitrary check instant. -/
theorem jwtVerify_generateUserToken (tp : StreamTokenProvider) (mintMs checkMs : Nat)
    (s : List Char) (ov : Option Int) :
    jwtVerify tp.apiSecret checkMs
        (tp.generateUserToken mintMs { userId := s, validityInSeconds := ov }).token
      = if ((checkMs / 1000 : Nat) : Int) ≥ ((mintMs / 1000 : Nat) : Int) + ov.getD 3600
        then none
        else some
          { user_id := s
            iat := ((mintMs / 1000 : Nat) : Int)
            exp := some (((mintMs / 1000 : Nat) : Int) + ov.getD 3600) } := by
  rw [generateUserToken_token, jwtVerify_jwtSign]

/-- A token minted with a positive validity window validates at the
minting instant. -/
theorem validateToken_fresh (tp : StreamTokenProvider) (nowMs : Nat) (s : List Char)
    (v : Int) (hv : 0 < v) :
    tp.validateToken nowMs
      (tp.generateUserToken nowMs { userId := s, validityInSeconds := some v }).token = true := by
  have hb := nowMs_div_bounds nowMs
  rw [StreamTokenProvider.validateToken, jwtVerify_generateUserToken]
  simp only [Option.getD_some]
  rw [if_neg (by omega)]
  show (if ((nowMs / 1000 : Nat) : Int) + v ≠ 0 ∧
      (((nowMs / 1000 : Nat) : Int) + v) * 1000 < (nowMs : Int) then false else true) = true
  rw [if_neg]
  rintro ⟨-, h2⟩
  have hq : (0 : Int) ≤ ((nowMs / 1000 : Nat) : Int) := Int.natCast_nonneg _
  nlinarith

/-- A token minted with validity `v > 300` seconds is not judged
expiring-soon (with the default 5-minute lead) at the minting instant. -/
theorem isTokenExpiringSoon_fresh (tp : StreamTokenProvider) (nowMs : Nat) (s : List Char)
    (v : Int) (hv : 300 < v) :
    tp.isTokenExpiringSoon nowMs
      (tp.generateUserToken nowMs { userId := s, validityInSeconds := some v }).token 5 = false := by
  have hb := nowMs_div_bounds nowMs
  have hq : (0 : Int) ≤ ((nowMs / 1000 : Nat) : Int) := Int.natCast_nonneg _
  rw [StreamTokenProvider.isTokenExpiringSoon, jwtVerify_generateUserToken]
  simp only [Option.getD_some]
  rw [if_neg (by omega)]
  show (if ((nowMs / 1000 : Nat) : Int) + v = 0 then false
    else decide ((((nowMs / 1000 : Nat) : Int) + v) * 1000 - 5 * 60 * 1000 ≤ (nowMs : Int))) = false
  rw [if_neg (by omega)]
  simp only [decide_eq_false_iff_not, not_le]
  nlinarith

theorem refreshPath_eq (st : TokenManagerState) (nowMs : Nat) (s : List Char)
    (v : Option Int) :
    st.refreshPath nowMs s v =
      { token := (st.tokenProvider.generateUserToken nowMs
          { userId := s, validityInSeconds := v }).token
        state := { st with currentToken := some (st.tokenProvider.generateUserToken nowMs
          { userId := s, validityInSeconds := v }) }
        callbackCalls := if st.hasRefreshCallback
          then [(st.tokenProvider.generateUserToken nowMs
            { userId := s, validityInSeconds := v }).token]
          else [] } := rfl

theorem getValidToken_cache_empty (st : TokenManagerState) (nowMs : Nat) (s : List Char)
    (v : Option Int) (hc : st.currentToken = none) :
    st.getValidToken nowMs s v = st.refreshPath nowMs s v := by
  rw [TokenManagerState.getValidToken, hc]

theorem getValidToken_cache_hit (st : TokenManagerState) (nowMs : Nat) (cur : TokenInfo)
    (s : List Char) (v : Option Int) (hc : st.currentToken = some cur) (hu : cur.userId = s)
    (hf : st.tokenProvider.isTokenExpiringSoon nowMs cur.token 5 = false) :
    st.getValidToken nowMs s v = { token := cur.token, state := st, callbackCalls := [] } := by
  rw [TokenManagerState.getValidToken, hc]
  show (if cur.userId ≠ s ∨ st.tokenProvider.isTokenExpiringSoon nowMs cur.token 5 = true
    then st.refreshPath nowMs s v
    else { token := cur.token, state := st, callbackCalls := [] }) = _
  rw [if_neg]
  rintro (h | h)
  · exact h hu
  · rw [hf] at h
    exact Bool.false_ne_true h

theorem getValidToken_cache_miss (st : TokenManagerState) (nowMs : Nat) (cur : TokenInfo)
    (s : List Char) (v : Option Int) (hc : st.currentToken = some cur)
    (hm : cur.userId ≠ s ∨ st.tokenProvider.isTokenExpiringSoon nowMs cur.token 5 = true) :
    st.getValidToken nowMs s v = st.refreshPath nowMs s v := by
  rw [TokenManagerState.getValidToken, hc]
  show (if cur.userId ≠ s ∨ st.tokenProvider.isTokenExpiringSoon nowMs cur.token 5 = true
    then st.refreshPath nowMs s v
    else { token := cur.token, state := st, callbackCalls := [] }) = _
  rw [if_pos hm]

/-- The state written by the refresh branch keeps the provider and the
callback registration, and caches the fresh credential. -/
theorem refreshPath_state (st : TokenManagerState) (nowMs : Nat) (s : List Char)
    (v : Option Int) :
    (st.refreshPath nowMs s v).state.tokenProvider = st.tokenProvider ∧
    (st.refreshPath nowMs s v).state.hasRefreshCallback = st.hasRefreshCallback ∧
    (st.refreshPath nowMs s v).state.currentToken
      = some (st.tokenProvider.generateUserToken nowMs
          { userId := s, validityInSeconds := v }) :=
  ⟨rfl, rfl, rfl⟩

/-- After a refresh, an immediate second same-subject call returns the
same fresh token string. -/
theorem getValidToken_after_refresh (st : TokenManagerState) (nowMs : Nat) (s : List Char)
    (v : Option Int) :
    ((st.refreshPath nowMs s v).state.getValidToken nowMs s v).token
      = (st.refreshPath nowMs s v).token := by
  have hfresh_uid : (st.tokenProvider.generateUserToken nowMs
      { userId := s, validityInSeconds := v }).userId = s := rfl
  cases hexp : (st.refreshPath nowMs s v).state.tokenProvider.isTokenExpiringSoon nowMs
      (st.tokenProvider.generateUserToken nowMs
        { userId := s, validityInSeconds := v }).token 5 with
  | false =>
    rw [getValidToken_cache_hit _ _ _ _ _ (refreshPath_state st nowMs s v).2.2 hfresh_uid hexp]
    rfl
  | true =>
    rw [getValidToken_cache_miss _ _ _ _ _ (refreshPath_state st nowMs s v).2.2 (Or.inr hexp)]
    rfl

/-- Both `getValidToken` calls of an immediate same-subject repetition
return the same token string, whatever the starting state. -/
theorem getValidToken_token_idem (st : TokenManagerState) (nowMs : Nat) (s : List Char)
    (v : Option Int) :
    ((st.getValidToken nowMs s v).state.getValidToken nowMs s v).token
      = (st.getValidToken nowMs s v).token := by
  rcases hc : st.currentToken with _ | cur
  · rw [getValidToken_cache_empty st nowMs s v hc]
    exact getValidToken_after_refresh st nowMs s v
  · by_cases hm : cur.userId ≠ s ∨ st.tokenProvider.isTokenExpiringSoon nowMs cur.token 5 = true
    · rw [getValidToken_cache_miss st nowMs cur s v hc hm]
      exact getValidToken_after_refresh st nowMs s v
    · push_neg at hm
      obtain ⟨hu, hf⟩ := hm
      have hf' : st.tokenProvider.isTokenExpiringSoon nowMs cur.token 5 = false := by
        cases hB : st.tokenProvider.isTokenExpiringSoon nowMs cur.token 5 with
        | false => rfl
        | true => exact absurd hB hf
      rw [getValidToken_cache_hit st nowMs cur s v hc hu hf']
      show (st.getValidToken nowMs s v).token = cur.token
      rw [getValidToken_cache_hit st nowMs cur s v hc hu hf']

theorem refreshPath_calls_len (st : TokenManagerState) (nowMs : Nat) (s : List Char)
    (v : Option Int) : (st.refreshPath nowMs s v).callbackCalls.length ≤ 1 := by
  rw [refreshPath_eq]
  cases st.hasRefreshCallback <;> simp

/-- When the freshly minted token is not judged expiring-soon, the
second call is a cache hit and does not fire the callback. -/
theorem getValidToken_after_refresh_calls (st : TokenManagerState) (nowMs : Nat)
    (s : List Char) (v : Option Int)
    (hexp : st.tokenProvider.isTokenExpiringSoon nowMs
      (st.tokenProvider.generateUserToken nowMs
        { userId := s, validityInSeconds := v }).token 5 = false) :
    ((st.refreshPath nowMs s v).state.getValidToken nowMs s v).callbackCalls = [] := by
  have hfresh_uid : (st.tokenProvider.generateUserToken nowMs
      { userId := s, validityInSeconds := v }).userId = s := rfl
  have hexp2 : (st.refreshPath nowMs s v).state.tokenProvider.isTokenExpiringSoon nowMs
      (st.tokenProvider.generateUserToken nowMs
        { userId := s, validityInSeconds := v }).token 5 = false := hexp
  rw [getValidToken_cache_hit _ _ _ _ _ (refreshPath_state st nowMs s v).2.2 hfresh_uid hexp2]

/-- Cached credential for the subject `a`, minted at time 0 with the
default validity, used by concrete witnesses. -/
def tiAlice : TokenInfo :=
  tpSample.generateUserToken 0 { userId := ['a'], validityInSeconds := some 3600 }

/-- Manager state with `tiAlice` cached and no callback registered. -/
def stCached : TokenManagerState :=
  { tokenProvider := tpSample, currentToken := some tiAlice, hasRefreshCallback := false }

/-- Manager state with an empty cache and a registered callback. -/
def stCb : TokenManagerState :=
  { tokenProvider := tpSample, currentToken := none, hasRefreshCallback := true }

/-- C1 (counterexample): with a registered callback, an empty cache,
and the positive validity window `v = 10 ≤ 300`, two immediate
`getValidToken` calls for the same subject return the identical token
string but fire the rotation callback twice (the freshly minted token
is already inside the 5-minute refresh lead), refuting the claim that
the callback fires at most once for every positive `v`. -/
theorem claim_C1_counterexample :
    (0 : Int) < 10 ∧
    ((stCb.getValidToken 0 ['a'] (some 10)).state.getValidToken 0 ['a'] (some 10)).token
      = (stCb.getValidToken 0 ['a'] (some 10)).token ∧
    (stCb.getValidToken 0 ['a'] (some 10)).callbackCalls.length
      + ((stCb.getValidToken 0 ['a'] (some 10)).state.getValidToken 0 ['a']
          (some 10)).callbackCalls.length = 2 := by
  refine ⟨by decide, by decide, by decide⟩

/-- C1 (amended): for every starting state, subject and positive
validity window `v`, two immediate `getValidToken` calls (no clock
advance) return the identical token string; and when `v` exceeds the
300-second refresh lead, the rotation callback fires at most once
across the two calls (for `v ≤ 300` the second call re-mints the
identical token and may fire the callback a second time). -/
theorem claim_C1_amended (st : TokenManagerState) (nowMs : Nat) (s : List Char) (v : Int)
    (hv : 0 < v) :
    ((st.getValidToken nowMs s (some v)).state.getValidToken nowMs s (some v)).token
        = (st.getValidToken nowMs s (some v)).token ∧
    (300 < v →
      (st.getValidToken nowMs s (some v)).callbackCalls.length
        + ((st.getValidToken nowMs s (some v)).state.getValidToken nowMs s
            (some v)).callbackCalls.length ≤ 1) := by
  refine ⟨getValidToken_token_idem st nowMs s (some v), fun h300 => ?_⟩
  have hexp := isTokenExpiringSoon_fresh st.tokenProvider nowMs s v h300
  rcases hc : st.currentToken with _ | cur
  · rw [getValidToken_cache_empty st nowMs s (some v) hc,
      getValidToken_after_refresh_calls st nowMs s (some v) hexp]
    simpa using refreshPath_calls_len st nowMs s (some v)
  · by_cases hm : cur.userId ≠ s ∨ st.tokenProvider.isTokenExpiringSoon nowMs cur.token 5 = true
    · rw [getValidToken_cache_miss st nowMs cur s (some v) hc hm,
        getValidToken_after_refresh_calls st nowMs s (some v) hexp]
      simpa using refreshPath_calls_len st nowMs s (some v)
    · push_neg at hm
      obtain ⟨hu, hf⟩ := hm
      have hf' : st.tokenProvider.isTokenExpiringSoon nowMs cur.token 5 = false := by
        simpa using hf
      rw [getValidToken_cache_hit st nowMs cur s (some v) hc hu hf']
      show List.length [] + (st.getValidToken nowMs s (some v)).callbackCalls.length ≤ 1
      rw [getValidToken_cache_hit st nowMs cur s (some v) hc hu hf']
      simp

theorem claim_C1_witness :
    (0 : Int) < 3600 ∧
    (((stCb.getValidToken 0 ['a'] (some 3600)).state.getValidToken 0 ['a']
          (some 3600)).token
        = (stCb.getValidToken 0 ['a'] (some 3600)).token ∧
      (300 < (3600 : Int) →
        (stCb.getValidToken 0 ['a'] (some 3600)).callbackCalls.length
          + ((stCb.getValidToken 0 ['a'] (some 3600)).state.getValidToken 0 ['a']
              (some 3600)).callbackCalls.length ≤ 1)) :=
  ⟨by decide, claim_C1_amended stCb 0 ['a'] 3600 (by decide)⟩

/-- C2: for every non-empty subject and positive validity window `v`,
`generateUserToken` mints a credential whose embedded expiry minus
issue time is exactly `v` (the model freezes the clock within the
call, so the clock-read tolerance is zero), whose `expiresAt` field
lies `v * 1000` ms after now, and which `validateToken` accepts at the
moment of return. -/
theorem claim_C2 (tp : StreamTokenProvider) (s : List Char) (v : Int) (nowMs : Nat)
    (hs : s ≠ []) (hv : 0 < v) :
    (∃ i e : Int,
      jwtVerify tp.apiSecret nowMs
          (tp.generateUserToken nowMs { userId := s, validityInSeconds := some v }).token
        = some { user_id := s, iat := i, exp := some e } ∧ e - i = v) ∧
    tp.validateToken nowMs
        (tp.generateUserToken nowMs { userId := s, validityInSeconds := some v }).token
      = true ∧
    (tp.generateUserToken nowMs
        { userId := s, validityInSeconds := some v }).expiresAtMs - (nowMs : Int)
      = v * 1000 := by
  have hb := nowMs_div_bounds nowMs
  refine ⟨⟨((nowMs / 1000 : Nat) : Int), ((nowMs / 1000 : Nat) : Int) + v, ?_, by ring⟩,
    validateToken_fresh tp nowMs s v hv, by
      show (nowMs : Int) + v * 1000 - (nowMs : Int) = v * 1000
      ring⟩
  rw [jwtVerify_generateUserToken]
  simp only [Option.getD_some]
  rw [if_neg (by omega)]

theorem claim_C2_witness :
    (['a'] : List Char) ≠ [] ∧ (0 : Int) < 10 ∧
    ((∃ i e : Int,
      jwtVerify tpSample.apiSecret 0
          (tpSample.generateUserToken 0 { userId := ['a'], validityInSeconds := some 10 }).token
        = some { user_id := ['a'], iat := i, exp := some e } ∧ e - i = 10) ∧
    tpSample.validateToken 0
        (tpSample.generateUserToken 0 { userId := ['a'], validityInSeconds := some 10 }).token
      = true ∧
    (tpSample.generateUserToken 0
        { userId := ['a'], validityInSeconds := some 10 }).expiresAtMs - ((0 : Nat) : Int)
      = 10 * 1000) :=
  ⟨by decide, by decide, claim_C2 tpSample ['a'] 10 0 (by decide) (by decide)⟩

/-- C6: minting is deterministic and a pure function of the subject,
the second-granularity timestamps and the secret: two providers that
share a secret (the api key may differ) mint byte-identical token
strings at clock instants with the same second floor, for the same
subject and validity argument. -/
theorem claim_C6 (key₁ key₂ secret s : List Char) (v : Option Int) (t₁ t₂ : Nat)
    (h : t₁ / 1000 = t₂ / 1000) :
    ((StreamTokenProvider.mk key₁ secret).generateUserToken t₁
        { userId := s, validityInSeconds := v }).token
      = ((StreamTokenProvider.mk key₂ secret).generateUserToken t₂
        { userId := s, validityInSeconds := v }).token := by
  rw [generateUserToken_token, generateUserToken_token]
  show jwtSign secret _ = jwtSign secret _
  rw [h]

theorem claim_C6_witness :
    (1000 : Nat) / 1000 = (1999 : Nat) / 1000 ∧
    ((StreamTokenProvider.mk [] ['k']).generateUserToken 1000
        { userId := ['a'], validityInSeconds := some 60 }).token
      = ((StreamTokenProvider.mk ['x'] ['k']).generateUserToken 1999
        { userId := ['a'], validityInSeconds := some 60 }).token :=
  ⟨by decide, claim_C6 [] ['x'] ['k'] ['a'] (some 60) 1000 1999 (by decide)⟩

/-- C10: the 3600-second default applies only when `validityInSeconds`
is absent; an explicit non-positive validity is used as-is, unclamped:
the minted payload carries `exp = iat + v ≤ iat`, and the resulting
token already fails `validateToken` at the minting instant. -/
theorem claim_C10 (tp : StreamTokenProvider) (s : List Char) (nowMs : Nat) (v : Int)
    (hv : v ≤ 0) :
    (∃ i : Int,
      jwtVerify tp.apiSecret nowMs
          (tp.generateUserToken nowMs { userId := s, validityInSeconds := none }).token
        = some { user_id := s, iat := i, exp := some (i + 3600) }) ∧
    (tp.generateUserToken nowMs { userId := s, validityInSeconds := some v }).token
      = jwtSign tp.apiSecret
          { user_id := s
            iat := ((nowMs / 1000 : Nat) : Int)
            exp := some (((nowMs / 1000 : Nat) : Int) + v) } ∧
    ((nowMs / 1000 : Nat) : Int) + v ≤ ((nowMs / 1000 : Nat) : Int) ∧
    tp.validateToken nowMs
        (tp.generateUserToken nowMs { userId := s, validityInSeconds := some v }).token
      = false := by
  have hb := nowMs_div_bounds nowMs
  refine ⟨⟨((nowMs / 1000 : Nat) : Int), ?_⟩, generateUserToken_token tp nowMs s (some v),
    by omega, ?_⟩
  · rw [jwtVerify_generateUserToken]
    simp only [Option.getD_none]
    rw [if_neg (by omega)]
  · rw [StreamTokenProvider.validateToken, jwtVerify_generateUserToken]
    simp only [Option.getD_some]
    rw [if_pos (by omega)]

theorem claim_C10_witness :
    (-5 : Int) ≤ 0 ∧
    ((∃ i : Int,
      jwtVerify tpSample.apiSecret 0
          (tpSample.generateUserToken 0 { userId := ['a'], validityInSeconds := none }).token
        = some { user_id := ['a'], iat := i, exp := some (i + 3600) }) ∧
    (tpSample.generateUserToken 0 { userId := ['a'], validityInSeconds := some (-5) }).token
      = jwtSign tpSample.apiSecret
          { user_id := ['a']
            iat := (((0 : Nat) / 1000 : Nat) : Int)
            exp := some ((((0 : Nat) / 1000 : Nat) : Int) + (-5)) } ∧
    (((0 : Nat) / 1000 : Nat) : Int) + (-5) ≤ (((0 : Nat) / 1000 : Nat) : Int) ∧
    tpSample.validateToken 0
        (tpSample.generateUserToken 0 { userId := ['a'], validityInSeconds := some (-5) }).token
      = false) :=
  ⟨by decide, claim_C10 tpSample ['a'] 0 (-5) (by decide)⟩

/-- C5: local verification never throws: for every input token string,
`validateToken` totally returns a boolean and `getUserFromToken`
totally returns the embedded subject (with its expiry claim) or
`none`; whenever `jwt.verify` fails, both collapse to `false` / `none`
rather than an exception. -/
theorem claim_C5 (tp : StreamTokenProvider) (nowMs : Nat) (t : List Char) :
    (jwtVerify tp.apiSecret nowMs t = none →
      tp.validateToken nowMs t = false ∧ tp.getUserFromToken nowMs t = none) ∧
    (∀ p, jwtVerify tp.apiSecret nowMs t = some p →
      tp.getUserFromToken nowMs t = some (p.user_id, p.exp)) ∧
    (tp.validateToken nowMs t = false ∨ tp.validateToken nowMs t = true) ∧
    (tp.getUserFromToken nowMs t = none ∨
      ∃ u e, tp.getUserFromToken nowMs t = some (u, e)) := by
  refine ⟨fun hnone => ?_, fun p hsome => ?_, ?_, ?_⟩
  · constructor
    · rw [StreamTokenProvider.validateToken, hnone]
    · rw [StreamTokenProvider.getUserFromToken, hnone]
      rfl
  · rw [StreamTokenProvider.getUserFromToken, hsome]
    rfl
  · cases h : tp.validateToken nowMs t
    · exact Or.inl rfl
    · exact Or.inr rfl
  · cases h : tp.getUserFromToken nowMs t with
    | none => exact Or.inl rfl
    | some ue => exact Or.inr ⟨ue.1, ue.2, rfl⟩

theorem claim_C5_witness :
    tpSample.validateToken 0 ['x'] = false ∧ tpSample.getUserFromToken 0 ['x'] = none :=
  (claim_C5 tpSample 0 ['x']).1 (by decide)

/-- Token minted at time 0 with a 1000-second validity, used to refute
the seconds reading of the lead parameter. -/
def tokThousand : List Char :=
  (tpSample.generateUserToken 0 { userId := ['a'], validityInSeconds := some 1000 }).token

/-- C4 (counterexample): the lead parameter of `isTokenExpiringSoon`
is measured in minutes, not seconds.  For a token expiring at second
1000, checked at time 0 with lead argument 300, the claim predicts
`false` (now is well before `expiresAt - 300` seconds and the token
verifies fine), but the code computes a 300-minute lead and returns
`true`. -/
theorem claim_C4_counterexample :
    tpSample.isTokenExpiringSoon 0 tokThousand 300 = true ∧
    (0 : Int) < (1000 - 300) * 1000 ∧
    jwtVerify tpSample.apiSecret 0 tokThousand
      = some { user_id := ['a'], iat := 0, exp := some 1000 } :=
  ⟨by decide, by decide, by decide⟩

/-- C4 (amended): the lead parameter `m` of `isTokenExpiringSoon` is
measured in minutes (the source default 5 equals the 300 seconds of
the spec).  The function returns `true` on any decode or verification
failure; for a token that verifies with a truthy (nonzero) embedded
expiry `e` it returns `true` exactly when `now ≥ e·1000 − m·60·1000`
milliseconds; and a falsy expiry claim (absent or zero) yields
`false`. -/
theorem claim_C4_amended (tp : StreamTokenProvider) (nowMs : Nat) (t : List Char) (m : Int) :
    (jwtVerify tp.apiSecret nowMs t = none → tp.isTokenExpiringSoon nowMs t m = true) ∧
    (∀ p e, jwtVerify tp.apiSecret nowMs t = some p → p.exp = some e → e ≠ 0 →
      (tp.isTokenExpiringSoon nowMs t m = true ↔
        e * 1000 - m * 60 * 1000 ≤ (nowMs : Int))) ∧
    (∀ p, jwtVerify tp.apiSecret nowMs t = some p → (p.exp = none ∨ p.exp = some 0) →
      tp.isTokenExpiringSoon nowMs t m = false) := by
  refine ⟨fun hnone => ?_, fun p e hsome hexp hne => ?_, fun p hsome hfalsy => ?_⟩
  · rw [StreamTokenProvider.isTokenExpiringSoon, hnone]
  · rw [StreamTokenProvider.isTokenExpiringSoon, hsome]
    show (match p.exp with
      | none => false
      | some e => if e = 0 then false
          else decide (e * 1000 - m * 60 * 1000 ≤ (nowMs : Int))) = true ↔ _
    rw [hexp]
    show (if e = 0 then false
      else decide (e * 1000 - m * 60 * 1000 ≤ (nowMs : Int))) = true ↔ _
    rw [if_neg hne]
    exact decide_eq_true_iff
  · rcases hfalsy with hnil | hzero
    · rw [StreamTokenProvider.isTokenExpiringSoon, hsome]
      show (match p.exp with
        | none => false
        | some e => if e = 0 then false
            else decide (e * 1000 - m * 60 * 1000 ≤ (nowMs : Int))) = false
      rw [hnil]
    · rw [StreamTokenProvider.isTokenExpiringSoon, hsome]
      show (match p.exp with
        | none => false
        | some e => if e = 0 then false
            else decide (e * 1000 - m * 60 * 1000 ≤ (nowMs : Int))) = false
      rw [hzero]
      show (if (0 : Int) = 0 then false
        else decide ((0 : Int) * 1000 - m * 60 * 1000 ≤ (nowMs : Int))) = false
      rw [if_pos rfl]

theorem claim_C4_amended_witness :
    tpSample.isTokenExpiringSoon 0 tokThousand 5 = true ↔
      (1000 : Int) * 1000 - 5 * 60 * 1000 ≤ ((0 : Nat) : Int) :=
  (claim_C4_amended tpSample 0 tokThousand 5).2.1
    { user_id := ['a'], iat := 0, exp := some 1000 } 1000 (by decide) rfl (by decide)

/-- C3: after any `getValidToken` call the cached credential belongs
to the subject just requested; and when the cached subject differs
from the requested one the call unconditionally mints a fresh
credential for the new subject (whatever the remaining lifetime of the
cached one), returns it, and caches it. -/
theorem claim_C3 (st : TokenManagerState) (nowMs : Nat) (s : List Char) (v : Option Int) :
    (∃ ti, (st.getValidToken nowMs s v).state.currentToken = some ti ∧ ti.userId = s) ∧
    (∀ old, st.currentToken = some old → old.userId ≠ s →
      (st.getValidToken nowMs s v).state.currentToken
          = some (st.tokenProvider.generateUserToken nowMs
            { userId := s, validityInSeconds := v }) ∧
      (st.getValidToken nowMs s v).token
          = (st.tokenProvider.generateUserToken nowMs
            { userId := s, validityInSeconds := v }).token) := by
  rcases hc : st.currentToken with _ | cur
  · rw [getValidToken_cache_empty st nowMs s v hc]
    refine ⟨⟨_, (refreshPath_state st nowMs s v).2.2, rfl⟩, fun old hold => ?_⟩
    exact absurd hold (by simp)
  · by_cases hm : cur.userId ≠ s ∨ st.tokenProvider.isTokenExpiringSoon nowMs cur.token 5 = true
    · rw [getValidToken_cache_miss st nowMs cur s v hc hm]
      exact ⟨⟨_, (refreshPath_state st nowMs s v).2.2, rfl⟩,
        fun old _ _ => ⟨(refreshPath_state st nowMs s v).2.2, rfl⟩⟩
    · push_neg at hm
      obtain ⟨hu, hf⟩ := hm
      have hf' : st.tokenProvider.isTokenExpiringSoon nowMs cur.token 5 = false := by
        simpa using hf
      rw [getValidToken_cache_hit st nowMs cur s v hc hu hf']
      refine ⟨⟨cur, hc, hu⟩, fun old hold hne => ?_⟩
      obtain rfl : cur = old := Option.some.inj hold
      exact absurd hu hne

theorem claim_C3_witness :
    (∃ ti, (stCached.getValidToken 0 ['b'] (some 60)).state.currentToken = some ti ∧
      ti.userId = ['b']) ∧
    ((stCached.getValidToken 0 ['b'] (some 60)).state.currentToken
        = some (stCached.tokenProvider.generateUserToken 0
          { userId := ['b'], validityInSeconds := some 60 }) ∧
      (stCached.getValidToken 0 ['b'] (some 60)).token
        = (stCached.tokenProvider.generateUserToken 0
          { userId := ['b'], validityInSeconds := some 60 }).token) :=
  ⟨(claim_C3 stCached 0 ['b'] (some 60)).1,
    (claim_C3 stCached 0 ['b'] (some 60)).2 tiAlice rfl (by decide)⟩

/-- C7: `clearToken` empties the single-slot cache, is idempotent,
and leaves both the rotation-callback registration and the provider
unchanged; after it, `getValidToken` always takes the cache-empty path
and mints fresh, returning and caching a newly minted credential. -/
theorem claim_C7 (st : TokenManagerState) (nowMs : Nat) (s : List Char) (v : Option Int) :
    st.clearToken.currentToken = none ∧
    st.clearToken.clearToken = st.clearToken ∧
    st.clearToken.hasRefreshCallback = st.hasRefreshCallback ∧
    st.clearToken.tokenProvider = st.tokenProvider ∧
    (st.clearToken.getValidToken nowMs s v).token
        = (st.tokenProvider.generateUserToken nowMs
          { userId := s, validityInSeconds := v }).token ∧
    (st.clearToken.getValidToken nowMs s v).state.currentToken
        = some (st.tokenProvider.generateUserToken nowMs
          { userId := s, validityInSeconds := v }) := by
  refine ⟨rfl, rfl, rfl, rfl, ?_, ?_⟩ <;>
    rw [getValidToken_cache_empty st.clearToken nowMs s v rfl] <;> rfl

/-- C8: a same-subject request while the cached credential is not yet
judged expiring-soon returns the cached token string unchanged — even
when the `validitySeconds` argument differs from the one the cached
credential was minted with — and neither the state nor the callback
is touched. -/
theorem claim_C8 (st : TokenManagerState) (nowMs : Nat) (cur : TokenInfo) (s : List Char)
    (v : Option Int) (hc : st.currentToken = some cur) (hu : cur.userId = s)
    (hf : st.tokenProvider.isTokenExpiringSoon nowMs cur.token 5 = false) :
    st.getValidToken nowMs s v =
      { token := cur.token, state := st, callbackCalls := [] } :=
  getValidToken_cache_hit st nowMs cur s v hc hu hf

theorem claim_C8_witness :
    stCached.getValidToken 0 ['a'] (some 7) =
      { token := tiAlice.token, state := stCached, callbackCalls := [] } :=
  claim_C8 stCached 0 tiAlice ['a'] (some 7) rfl rfl (by decide)

/-- Reassociation of a token built from a signing input and an
arbitrary signature segment. -/
theorem signingInput_append_assoc (p : JwtPayload) (x : List Char) :
    signingInput p ++ ('.' :: x) = jwtHeader ++ ('.' :: (encPayload p ++ ('.' :: x))) := by
  rw [signingInput, List.append_assoc, List.cons_append]

/-- `jwt.verify` rejects any string that does not split into exactly
three dot-separated segments. -/
theorem jwtVerify_eq_none_of_length (secret : List Char) (nowMs : Nat) (t : List Char)
    (hlen : (splitOnChar '.' t).length ≠ 3) : jwtVerify secret nowMs t = none := by
  rw [jwtVerify]
  rcases hs : splitOnChar '.' t with _ | ⟨a, _ | ⟨b, _ | ⟨c, _ | ⟨d, tl⟩⟩⟩⟩
  · rfl
  · rfl
  · rfl
  · exfalso
    rw [hs] at hlen
    simp at hlen
  · rfl

/-- C9: flipping any single character of the signature segment of a
valid token makes `validateToken` return `false` and
`getUserFromToken` return `none`: the recomputed signature no longer
matches the embedded one (and if the flip introduces a dot, the
structural three-segment split fails instead). -/
theorem claim_C9 (tp : StreamTokenProvider) (p : JwtPayload) (nowMs : Nat) (i : Nat)
    (c₀ c' : Char)
    (hget : (hmacSHA256 tp.apiSecret (signingInput p))[i]? = some c₀)
    (hne : c' ≠ c₀)
    (hvalid : tp.validateToken nowMs (jwtSign tp.apiSecret p) = true) :
    tp.validateToken nowMs
        (signingInput p ++ ('.' :: (hmacSHA256 tp.apiSecret (signingInput p)).set i c'))
      = false ∧
    tp.getUserFromToken nowMs
        (signingInput p ++ ('.' :: (hmacSHA256 tp.apiSecret (signingInput p)).set i c'))
      = none := by
  obtain ⟨hi, hval⟩ := List.getElem?_eq_some.mp hget
  have hver : jwtVerify tp.apiSecret nowMs
      (signingInput p ++ ('.' :: (hmacSHA256 tp.apiSecret (signingInput p)).set i c'))
        = none := by
    by_cases hdot : c' = '.'
    · subst hdot
      apply jwtVerify_eq_none_of_length
      rw [signingInput_append_assoc, splitOnChar_length]
      have h0 : jwtHeader.count '.' = 0 := List.count_eq_zero.mpr dot_not_mem_jwtHeader
      have h1 : (encPayload p).count '.' = 0 := List.count_eq_zero.mpr dot_not_mem_encPayload
      have hmem : '.' ∈ (hmacSHA256 tp.apiSecret (signingInput p)).set i '.' := by
        have hlt : i < ((hmacSHA256 tp.apiSecret (signingInput p)).set i '.').length := by
          rw [List.length_set]; exact hi
        have hg : ((hmacSHA256 tp.apiSecret (signingInput p)).set i '.')[i] = '.' :=
          List.getElem_set_self hlt
        have hm := List.getElem_mem hlt
        rwa [hg] at hm
      have h2 : 0 < ((hmacSHA256 tp.apiSecret (signingInput p)).set i '.').count '.' :=
        List.count_pos_iff.mpr hmem
      simp only [List.count_append, List.count_cons_self, h0, h1]
      omega
    · have hnodot : '.' ∉ (hmacSHA256 tp.apiSecret (signingInput p)).set i c' := by
        intro hmem
        rcases List.mem_or_eq_of_mem_set hmem with hmem' | heq
        · exact dot_not_mem_hmacSHA256 hmem'
        · exact hdot heq.symm
      have hsplit : splitOnChar '.'
          (signingInput p ++ ('.' :: (hmacSHA256 tp.apiSecret (signingInput p)).set i c'))
            = [jwtHeader, encPayload p, (hmacSHA256 tp.apiSecret (signingInput p)).set i c'] := by
        rw [signingInput_append_assoc, splitOnChar_append _ dot_not_mem_jwtHeader,
          splitOnChar_append _ dot_not_mem_encPayload, splitOnChar_of_not_mem hnodot]
      rw [jwtVerify, hsplit]
      show jwtVerifyParts tp.apiSecret nowMs jwtHeader (encPayload p)
        ((hmacSHA256 tp.apiSecret (signingInput p)).set i c') = none
      rw [jwtVerifyParts, if_neg]
      rintro ⟨-, h2⟩
      have hrhs : hmacSHA256 tp.apiSecret (jwtHeader ++ '.' :: encPayload p)
          = hmacSHA256 tp.apiSecret (signingInput p) := rfl
      rw [hrhs] at h2
      have h5 := congrArg (fun l => l[i]?) h2
      simp only at h5
      rw [List.getElem?_set_self hi, hget] at h5
      exact hne (Option.some.inj h5)
  constructor
  · rw [StreamTokenProvider.validateToken, hver]
  · rw [StreamTokenProvider.getUserFromToken, hver]
    rfl

theorem claim_C9_witness :
    (hmacSHA256 tpSample.apiSecret
        (signingInput { user_id := ['a'], iat := 0, exp := some 3600 }))[0]? = some '7' ∧
    ('Z' : Char) ≠ '7' ∧
    tpSample.validateToken 0
        (jwtSign tpSample.apiSecret { user_id := ['a'], iat := 0, exp := some 3600 }) = true ∧
    (tpSample.validateToken 0
        (signingInput { user_id := ['a'], iat := 0, exp := some 3600 } ++
          ('.' :: (hmacSHA256 tpSample.apiSecret
            (signingInput { user_id := ['a'], iat := 0, exp := some 3600 })).set 0 'Z'))
      = false ∧
    tpSample.getUserFromToken 0
        (signingInput { user_id := ['a'], iat := 0, exp := some 3600 } ++
          ('.' :: (hmacSHA256 tpSample.apiSecret
            (signingInput { user_id := ['a'], iat := 0, exp := some 3600 })).set 0 'Z'))
      = none) :=
  ⟨by decide, by decide, by decide,
    claim_C9 tpSample { user_id := ['a'], iat := 0, exp := some 3600 } 0 0 '7' 'Z'
      (by decide) (by decide) (by decide)⟩
